import Mathlib

/-
Verification development for the `jason` JSON parser.

The Rust sources are embedded shallowly:
  * `src/lexer/base/unescape.rs`  → `scanEscape`, `unescapeString`
  * `src/lexer/base/mod.rs`       → `advanceToken` and its helpers
  * `src/lexer/mod.rs`            → `Tokenizer.nextToken`, `tokenize`
  * `src/lexer/token.rs`          → `Span`, `StrError`, `TokenKind`, `Token`
  * `src/parser.rs`               → `ParseError`, the `Parser.*` productions, `parse`
  * `src/ast.rs`                  → `Node`

Modelling conventions:
  * Rust `&str` values are `List Char` (Unicode scalar values); byte offsets and
    lengths are measured with `utf8Len` / `Char.utf8Size`.
  * Machine integers (`usize` offsets) are `Nat`; `isize` values are `Int`
    together with an explicit 64-bit range check.
  * `f64` values are not modelled: a cooked float token carries the numeral
    text it was parsed from (no claim inspects a float's numeric value, and
    Rust's `f64` parse is total on every lexeme the raw lexer labels Float).
  * A Rust panic (the `unwrap` in integer cooking, or an out-of-bounds string
    slice) is `none`; every recursion that is not structural in the source
    carries a fuel argument sized so that it cannot run out (each loop
    iteration consumes at least one character or token).
  * The file `src/lexer/base/cursor.rs` is absent from the sources; the
    `Cursor` primitives are modelled from the spec, see `Cursor` below.
-/

/-! ### Byte lengths and byte slicing -/

/-- Total UTF-8 byte length of a character list (Rust `str::len`). -/
def utf8Len : List Char → Nat
  | [] => 0
  | c :: cs => c.utf8Size + utf8Len cs

/-- Drop exactly `n` bytes from the front; `none` when `n` is not a character
boundary or exceeds the text (where Rust slicing would panic). -/
def byteDrop : List Char → Nat → Option (List Char)
  | l, 0 => some l
  | [], _ + 1 => none
  | c :: cs, n + 1 =>
    if c.utf8Size ≤ n + 1 then byteDrop cs (n + 1 - c.utf8Size) else none

/-- Take exactly `n` bytes from the front; `none` on a non-boundary or overrun. -/
def byteTake : List Char → Nat → Option (List Char)
  | _, 0 => some []
  | [], _ + 1 => none
  | c :: cs, n + 1 =>
    if c.utf8Size ≤ n + 1 then (byteTake cs (n + 1 - c.utf8Size)).map (c :: ·) else none

/-- Rust `&input[start..stop]`: `none` exactly where Rust would panic. -/
def byteSlice (l : List Char) (start stop : Nat) : Option (List Char) :=
  if start ≤ stop then (byteDrop l start).bind (fun t => byteTake t (stop - start)) else none

/-! ### Character predicates used by the raw lexer -/

/-- Rust `char::is_whitespace`: the Unicode `White_Space` property, listed in full. -/
def rustIsWhitespace (c : Char) : Bool :=
  let n := c.toNat
  decide (n = 0x09 ∨ n = 0x0A ∨ n = 0x0B ∨ n = 0x0C ∨ n = 0x0D ∨ n = 0x20 ∨
    n = 0x85 ∨ n = 0xA0 ∨ n = 0x1680 ∨ (0x2000 ≤ n ∧ n ≤ 0x200A) ∨
    n = 0x2028 ∨ n = 0x2029 ∨ n = 0x202F ∨ n = 0x205F ∨ n = 0x3000)

/-- Models `unicode_xid::UnicodeXID::is_xid_start` (`is_id_start` in
`src/lexer/base/mod.rs`). Exact on the ASCII range, where `XID_Start` is the
letters; the non-ASCII `XID_Start` table is not reproduced (no claim involves a
non-ASCII identifier character). -/
def is_id_start (c : Char) : Bool := c.isAlpha

/-- Models `unicode_xid::UnicodeXID::is_xid_continue` (`is_id_continue`).
Exact on the ASCII range: letters, digits and underscore. -/
def is_id_continue (c : Char) : Bool := c.isAlphanum || c = '_'

/-- Rust `char::is_control`: the `Cc` category, `U+0000..U+001F` and
`U+007F..U+009F`. -/
def rustIsControl (c : Char) : Bool :=
  let n := c.toNat
  decide (n < 0x20 ∨ (0x7F ≤ n ∧ n ≤ 0x9F))

/-- Rust `char::to_digit(16)`: the value of an ASCII hexadecimal digit. -/
def toDigit16 (c : Char) : Option Nat :=
  let n := c.toNat
  if 48 ≤ n ∧ n ≤ 57 then some (n - 48)
  else if 97 ≤ n ∧ n ≤ 102 then some (n - 87)
  else if 65 ≤ n ∧ n ≤ 70 then some (n - 55)
  else none

/-- Rust `char::from_u32`: a scalar value outside the surrogate range. -/
def charFromU32 (v : Nat) : Option Char :=
  if v < 0xD800 ∨ (0xE000 ≤ v ∧ v < 0x110000) then some (Char.ofNat v) else none

/-! ### Unescape engine (`src/lexer/base/unescape.rs`) -/

/-- Errors that can occur during string unescaping (`EscapeError`). -/
inductive EscapeError
  | loneSlash
  | invalidEscape
  | bareBackspace
  | bareFormFeed
  | bareLineFeed
  | bareCarriageReturn
  | bareHorizontalTab
  | badControlChar
  | escapeOnlyChar
  | badUnicodeEscape
  | loneSurrogateUnicodeEscape
  | outOfRangeUnicodeEscape
deriving DecidableEq

/-- The hex-digit loop of `scan_escape` after `\u` and a first digit:
`nDigits` digits seen so far with accumulated `value`; `bytes` counts the
bytes consumed so far by the escape body (after the backslash). Returns the
result, the final byte count, and the remaining characters. -/
def scanUnicodeLoop : List Char → Nat → Nat → Nat → (Except EscapeError Char) × Nat × List Char
  | [], _, _, bytes => (.error .badUnicodeEscape, bytes, [])
  | c :: cs, nDigits, value, bytes =>
    match toDigit16 c with
    | none => (.error .badUnicodeEscape, bytes + c.utf8Size, cs)
    | some d =>
      let value := value * 16 + d
      let bytes := bytes + c.utf8Size
      if nDigits + 1 < 4 then scanUnicodeLoop cs (nDigits + 1) value bytes
      else
        match charFromU32 value with
        | some ch => (.ok ch, bytes, cs)
        | none =>
          (.error (if value > 0x10FFFF then .outOfRangeUnicodeEscape
                   else .loneSurrogateUnicodeEscape), bytes, cs)

/-- The `'u'` arm of `scan_escape`: first hex digit, then `scanUnicodeLoop`. -/
def scanUnicode (cs : List Char) : (Except EscapeError Char) × Nat × List Char :=
  match cs with
  | [] => (.error .badUnicodeEscape, 1, [])
  | c :: cs =>
    match toDigit16 c with
    | none => (.error .badUnicodeEscape, 1 + c.utf8Size, cs)
    | some d => scanUnicodeLoop cs 1 d 2

/-- `scan_escape`: the previous character was a backslash; decode what follows.
Returns the result, the number of bytes consumed after the backslash, and the
remaining characters. -/
def scanEscape : List Char → (Except EscapeError Char) × Nat × List Char
  | [] => (.error .loneSlash, 0, [])
  | c :: cs =>
    if c = '"' then (.ok '"', 1, cs)
    else if c = '\\' then (.ok '\\', 1, cs)
    else if c = '/' then (.ok '/', 1, cs)
    else if c = 'b' then (.ok '\x08', 1, cs)
    else if c = 'f' then (.ok '\x0C', 1, cs)
    else if c = 'n' then (.ok '\n', 1, cs)
    else if c = 'r' then (.ok '\r', 1, cs)
    else if c = 't' then (.ok '\t', 1, cs)
    else if c = 'u' then scanUnicode cs
    else (.error .invalidEscape, c.utf8Size, cs)

/-- One unescaping pass (`iter_unescape_string` folded as `unescape_string`
does): stops at the first error, reporting it with its byte range
`(start, stop)` relative to the start of the string content. `fuel` only
bounds the recursion; `unescapeString` supplies `length + 1`, which cannot run
out since every iteration consumes at least one character. -/
def unescapeLoop : Nat → List Char → Nat → List Char → Except (EscapeError × Nat × Nat) (List Char)
  | 0, _, _, acc => .ok acc.reverse
  | _ + 1, [], _, acc => .ok acc.reverse
  | fuel + 1, c :: cs, offset, acc =>
    if c = '\\' then
      match scanEscape cs with
      | (res, n, cs2) =>
        let stop := offset + c.utf8Size + n
        match res with
        | .ok ch => unescapeLoop fuel cs2 stop (ch :: acc)
        | .error e => .error (e, offset, stop)
    else
      let stop := offset + c.utf8Size
      let res : Except EscapeError Char :=
        if c = '"' then .error .escapeOnlyChar
        else if c = '\x08' then .error .bareBackspace
        else if c = '\x0C' then .error .bareFormFeed
        else if c = '\n' then .error .bareLineFeed
        else if c = '\r' then .error .bareCarriageReturn
        else if c = '\t' then .error .bareHorizontalTab
        else if rustIsControl c then .error .badControlChar
        else .ok c
      match res with
      | .ok ch => unescapeLoop fuel cs stop (ch :: acc)
      | .error e => .error (e, offset, stop)

/-- `unescape_string`: decode the text between the quotes of a string lexeme,
or report the first error with its byte range within that text. -/
def unescapeString (input : List Char) : Except (EscapeError × Nat × Nat) (List Char) :=
  unescapeLoop (input.length + 1) input 0 []

/-! ### Cursor (raw scanner)

The repository declares `mod cursor` in `src/lexer/base/mod.rs`, but the file
`src/lexer/base/cursor.rs` is not among the sources; only its callers are. -/

/-- Modelled from the spec: the Cursor raw scanner of section 4.1 (its source
file `src/lexer/base/cursor.rs` is missing). It "walks the input as a sequence
of Unicode scalar values, exposing lookahead and consuming them one at a time;
stateless beyond its current position"; multi-byte characters count one for
lookahead but contribute their full byte length to the lexeme length. `rest`
is the remaining input; `consumedRev` records the scalars consumed since the
last length reset (newest first), so `posWithinToken` is their byte length. -/
structure Cursor where
  rest : List Char
  consumedRev : List Char
deriving DecidableEq

/-- Sentinel returned by lookahead at end of input; no classification in
`advance_token` treats it as meaningful input. -/
def eofChar : Char := '\x00'

/-- Consume the next scalar value, if any. -/
def Cursor.bump (c : Cursor) : Option Char × Cursor :=
  match c.rest with
  | [] => (none, c)
  | x :: xs => (some x, ⟨xs, x :: c.consumedRev⟩)

/-- First lookahead character (`eofChar` at end of input). -/
def Cursor.first (c : Cursor) : Char :=
  c.rest.headD eofChar

/-- Second lookahead character. -/
def Cursor.second (c : Cursor) : Char :=
  match c.rest with
  | _ :: x :: _ => x
  | _ => eofChar

/-- Third lookahead character. -/
def Cursor.third (c : Cursor) : Char :=
  match c.rest with
  | _ :: _ :: x :: _ => x
  | _ => eofChar

/-- Byte length consumed since the last reset. -/
def Cursor.posWithinToken (c : Cursor) : Nat :=
  utf8Len c.consumedRev

/-- Start counting a fresh lexeme. -/
def Cursor.resetPosWithinToken (c : Cursor) : Cursor :=
  ⟨c.rest, []⟩

/-- Maximal run satisfying `p`: the consumed prefix and the rest. -/
def eatWhileList (p : Char → Bool) : List Char → List Char × List Char
  | [] => ([], [])
  | c :: cs =>
    if p c then
      let r := eatWhileList p cs
      (c :: r.1, r.2)
    else ([], c :: cs)

/-- `eat_while`: repeatedly bump while the predicate holds on the lookahead. -/
def Cursor.eatWhile (c : Cursor) (p : Char → Bool) : Cursor :=
  let r := eatWhileList p c.rest
  ⟨r.2, r.1.reverse ++ c.consumedRev⟩

/-- `eat_decimal_digits` (its `has_digits` return value is unused by `number`). -/
def Cursor.eatDecimalDigits (c : Cursor) : Cursor :=
  c.eatWhile Char.isDigit

/-! ### Raw lexer (`src/lexer/base/mod.rs`) -/

/-- Raw lexeme kinds (`base::TokenKind`). -/
inductive RawTokenKind
  | int
  | float
  | str (terminated : Bool)
  | openBracket
  | closeBracket
  | openSquare
  | closeSquare
  | colon
  | comma
  | ident
  | whitespace
  | eof
  | unknown
deriving DecidableEq

/-- Raw lexeme (`base::Token`): a kind and a byte length. -/
structure RawToken where
  kind : RawTokenKind
  len : Nat
deriving DecidableEq

/-- The common tail of `advance_token`: build the token from the byte count
accumulated in the cursor, then reset it. The lone-minus arm of
`advance_token` bypasses this (early `return`), skipping the reset. -/
def Cursor.finishToken (c : Cursor) (kind : RawTokenKind) : RawToken × Cursor :=
  (⟨kind, c.posWithinToken⟩, c.resetPosWithinToken)

/-- The `has_digits` test in `number` for a leading `0`: does a fractional
part or a valid exponent follow, so that the `0` extends to a float? -/
def numberZeroHasDigits (c : Cursor) : Bool :=
  if c.first = '.' then c.second.isDigit
  else if c.first = 'e' ∨ c.first = 'E' then
    if c.second.isDigit then true
    else if c.second = '+' ∨ c.second = '-' then c.third.isDigit
    else false
  else false

/-- The fraction/exponent tail of `number` (the big match after the integer
digits have been consumed). -/
def numberTail (c : Cursor) : RawTokenKind × Cursor :=
  if c.first = '.' then
    if c.second.isDigit then
      -- every outcome after a fraction is a float, with the exponent
      -- optionally consumed
      let c := (c.bump).2
      let c := c.eatDecimalDigits
      (.float,
        if c.first = 'e' ∨ c.first = 'E' then
          if c.second.isDigit then ((c.bump).2).eatDecimalDigits
          else if c.second = '+' ∨ c.second = '-' then
            if c.third.isDigit then ((((c.bump).2).bump).2).eatDecimalDigits
            else c
          else c
        else c)
    else (.int, c)
  else if c.first = 'e' ∨ c.first = 'E' then
    if c.second.isDigit then
      let c := (c.bump).2
      (.float, c.eatDecimalDigits)
    else if c.second = '+' ∨ c.second = '-' then
      if c.third.isDigit then
        let c := (c.bump).2
        let c := (c.bump).2
        (.float, c.eatDecimalDigits)
      else (.int, c)
    else (.int, c)
  else (.int, c)

/-- `Cursor::number`: the first digit has been bumped. A leading `0` not
followed by a fraction or valid exponent stays a single-character integer
(`00` lexes as two separate integers). -/
def number (firstDigit : Char) (c : Cursor) : RawTokenKind × Cursor :=
  if firstDigit = '0' then
    if numberZeroHasDigits c then numberTail c else (.int, c)
  else numberTail c.eatDecimalDigits

/-- The scanning loop of `double_quoted_string`, on the characters after the
opening quote: returns whether a closing unescaped quote was found, the
consumed characters (including that quote), and the rest. -/
def doubleQuotedStringList : List Char → Bool × List Char × List Char
  | [] => (false, [], [])
  | c :: cs =>
    if c = '"' then (true, [c], cs)
    else if c = '\\' then
      match cs with
      | [] => (false, [c], [])
      | d :: cs2 =>
        if d = '\\' || d = '"' then
          let r := doubleQuotedStringList cs2
          (r.1, c :: d :: r.2.1, r.2.2)
        else
          let r := doubleQuotedStringList (d :: cs2)
          (r.1, c :: r.2.1, r.2.2)
    else
      let r := doubleQuotedStringList cs
      (r.1, c :: r.2.1, r.2.2)

/-- `Cursor::double_quoted_string`: the opening quote has been bumped. -/
def Cursor.doubleQuotedString (c : Cursor) : Bool × Cursor :=
  let r := doubleQuotedStringList c.rest
  (r.1, ⟨r.2.2, r.2.1.reverse ++ c.consumedRev⟩)

/-- `Cursor::advance_token`: classify and consume the next maximal raw lexeme.
The branch order mirrors the source: whitespace, identifier start, digit,
minus, punctuation, quote, unknown. The lone-minus arm returns
`Token::new(Unknown, 1)` directly, skipping the position reset (as the early
`return` in the source does). -/
def advanceToken (c : Cursor) : RawToken × Cursor :=
  match c.bump with
  | (none, c0) => (⟨.eof, 0⟩, c0)
  | (some firstChar, c0) =>
    if rustIsWhitespace firstChar then
      (c0.eatWhile rustIsWhitespace).finishToken .whitespace
    else if is_id_start firstChar then
      (c0.eatWhile is_id_continue).finishToken .ident
    else if firstChar.isDigit then
      let r := number firstChar c0
      r.2.finishToken r.1
    else if firstChar = '-' then
      if (c0.first).isDigit then
        match c0.bump with
        | (some d, c1) =>
          let r := number d c1
          r.2.finishToken r.1
        | (none, c1) => c1.finishToken .unknown
      else
        (⟨.unknown, 1⟩, c0)
    else if firstChar = '{' then c0.finishToken .openBracket
    else if firstChar = '}' then c0.finishToken .closeBracket
    else if firstChar = '[' then c0.finishToken .openSquare
    else if firstChar = ']' then c0.finishToken .closeSquare
    else if firstChar = ':' then c0.finishToken .colon
    else if firstChar = ',' then c0.finishToken .comma
    else if firstChar = '"' then
      let r := c0.doubleQuotedString
      r.2.finishToken (.str r.1)
    else c0.finishToken .unknown

/-! ### Cooked tokens (`src/lexer/token.rs`) -/

/-- Byte span into the original source (`Span`). -/
structure Span where
  base : Nat
  len : Nat
deriving DecidableEq

/-- `Span::new(lo, hi)`. -/
def Span.new (lo hi : Nat) : Span :=
  ⟨lo, hi - lo⟩

/-- Errors that can occur during string parsing (`StrError`). -/
inductive StrError
  | unterminated
  | invalidEscape
  | bareBackspace
  | bareFormFeed
  | bareLineFeed
  | bareCarriageReturn
  | bareHorizontalTab
  | badControlChar
  | escapeOnlyChar
  | badUnicodeEscape
  | loneSurrogateUnicodeEscape
  | outOfRangeUnicodeEscape
deriving DecidableEq

/-- `impl From<EscapeError> for StrError` (a lone slash means the closing
quote was escaped, hence an unterminated string). -/
def EscapeError.toStrError : EscapeError → StrError
  | .loneSlash => .unterminated
  | .invalidEscape => .invalidEscape
  | .bareBackspace => .bareBackspace
  | .bareFormFeed => .bareFormFeed
  | .bareLineFeed => .bareLineFeed
  | .bareCarriageReturn => .bareCarriageReturn
  | .bareHorizontalTab => .bareHorizontalTab
  | .badControlChar => .badControlChar
  | .escapeOnlyChar => .escapeOnlyChar
  | .badUnicodeEscape => .badUnicodeEscape
  | .loneSurrogateUnicodeEscape => .loneSurrogateUnicodeEscape
  | .outOfRangeUnicodeEscape => .outOfRangeUnicodeEscape

/-- Cooked token kinds (`token::TokenKind`). `tTrue`/`tFalse`/`tNull` stand
for the source's `True`/`False`/`Null`; `float` carries the numeral text in
place of the unmodelled `f64` value. -/
inductive TokenKind
  | int (v : Int)
  | float (text : List Char)
  | str (s : List Char)
  | invalidStr (e : StrError) (offset : Nat)
  | openBracket
  | closeBracket
  | openSquare
  | closeSquare
  | colon
  | comma
  | tTrue
  | tFalse
  | tNull
  | whitespace
  | eof
  | invalidIdent (s : List Char)
  | unknown (s : List Char)
deriving DecidableEq

/-- Cooked token (`token::Token`). -/
structure Token where
  kind : TokenKind
  span : Span
deriving DecidableEq

/-! ### Integer cooking -/

/-- Value of a digit run (most significant first). -/
def digitsToNat (ds : List Char) : Nat :=
  ds.foldl (fun a c => 10 * a + (c.toNat - 48)) 0

/-- Models `str::parse::<isize>` on a 64-bit target, per its documented
behavior (the standard library is an external collaborator): an optional
leading `+` or `-` followed by one or more ASCII digits, succeeding exactly
when the value fits in `[-2^63, 2^63 - 1]`. -/
def parseIsize (s : List Char) : Option Int :=
  match s with
  | [] => none
  | c :: cs =>
    let ds := if c = '-' ∨ c = '+' then cs else c :: cs
    if ds.isEmpty || !(ds.all Char.isDigit) then none
    else
      let v : Int := if c = '-' then -(digitsToNat ds : Int) else (digitsToNat ds : Int)
      if -(2 ^ 63) ≤ v ∧ v ≤ 2 ^ 63 - 1 then some v else none

/-! ### Token cooker (`src/lexer/mod.rs`) -/

/-- `Tokenizer::cook_base_ident`: the slice `input[start..pos]` matched
against the literal keywords. `none` models a slicing panic. -/
def Tokenizer.cookBaseIdent (input : List Char) (start pos : Nat) : Option TokenKind :=
  (byteSlice input start pos).map fun slice =>
    if slice = "true".toList then .tTrue
    else if slice = "false".toList then .tFalse
    else if slice = "null".toList then .tNull
    else .invalidIdent slice

/-- `Tokenizer::cook_base_integer`: `slice.parse().unwrap()`; `none` models
the panic when the parse fails (or the slice is out of bounds). -/
def Tokenizer.cookBaseInteger (input : List Char) (start pos : Nat) : Option TokenKind :=
  (byteSlice input start pos).bind fun slice =>
    (parseIsize slice).map (.int ·)

/-- `Tokenizer::cook_base_decimal`: `slice.parse::<f64>().unwrap()`. The
float's numeric value is not modelled; the token carries the slice itself
(Rust's `f64` parse succeeds on every lexeme the raw lexer labels Float). -/
def Tokenizer.cookBaseDecimal (input : List Char) (start pos : Nat) : Option TokenKind :=
  (byteSlice input start pos).map (.float ·)

/-- `Tokenizer::cook_base_quoted_string`: an unterminated lexeme records the
absolute position `pos` (the tokenizer's `self.pos`); a terminated one is
unescaped on the interior slice, errors shifted by one for the opening quote. -/
def Tokenizer.cookBaseQuotedString (input : List Char) (start pos : Nat) (terminated : Bool) :
    Option TokenKind :=
  if !terminated then some (.invalidStr .unterminated pos)
  else
    (byteSlice input (start + 1) (pos - 1)).map fun slice =>
      match unescapeString slice with
      | .ok s => .str s
      | .error (e, rstart, _) => .invalidStr e.toStrError (rstart + 1)

/-- `Tokenizer::cook_base_unknown`. -/
def Tokenizer.cookBaseUnknown (input : List Char) (start pos : Nat) : Option TokenKind :=
  (byteSlice input start pos).map (.unknown ·)

/-- The cooking dispatch inside `Tokenizer::next_token` (whitespace is
handled by the skip loop before this point). -/
def Tokenizer.cookRawKind (input : List Char) (start pos : Nat) :
    RawTokenKind → Option TokenKind
  | .ident => Tokenizer.cookBaseIdent input start pos
  | .int => Tokenizer.cookBaseInteger input start pos
  | .float => Tokenizer.cookBaseDecimal input start pos
  | .str terminated => Tokenizer.cookBaseQuotedString input start pos terminated
  | .openBracket => some .openBracket
  | .closeBracket => some .closeBracket
  | .openSquare => some .openSquare
  | .closeSquare => some .closeSquare
  | .colon => some .colon
  | .comma => some .comma
  | .unknown => Tokenizer.cookBaseUnknown input start pos
  | .eof => some .eof
  | .whitespace => some .whitespace

/-- Tokenizer state: the running absolute byte position and the cursor
(`Tokenizer { pos, input, cursor }`; the input is passed separately). -/
structure Tokenizer where
  pos : Nat
  cursor : Cursor
deriving DecidableEq

/-- `Tokenizer::next_token`: advance raw lexemes, skipping whitespace while
recording it, then cook the first non-whitespace lexeme and give it its
absolute span. `fuel` bounds the skip loop; callers pass more fuel than there
are remaining characters, and every whitespace lexeme consumes at least one. -/
def Tokenizer.nextToken (input : List Char) :
    Nat → Tokenizer → Bool → Option ((Token × Bool) × Tokenizer)
  | 0, _, _ => none
  | fuel + 1, t, precededByWhitespace =>
    let r := advanceToken t.cursor
    let start := t.pos
    let pos := t.pos + r.1.len
    match r.1.kind with
    | .whitespace => Tokenizer.nextToken input fuel ⟨pos, r.2⟩ true
    | k =>
      (Tokenizer.cookRawKind input start pos k).map fun kind =>
        ((⟨kind, Span.new start pos⟩, precededByWhitespace), ⟨pos, r.2⟩)

/-- The token stream of `impl Iterator for Tokenizer`: cooked tokens up to
(and excluding) `Eof`. `fuel` bounds the token count; `tokenize` passes
`input.length + 1` and every emitted token consumes at least one character. -/
def Tokenizer.run (input : List Char) : Nat → Tokenizer → Option (List Token)
  | 0, _ => none
  | fuel + 1, t =>
    match Tokenizer.nextToken input (t.cursor.rest.length + 1) t false with
    | none => none
    | some ((tok, _), t2) =>
      match tok.kind with
      | .eof => some []
      | _ => (Tokenizer.run input fuel t2).map (tok :: ·)

/-- All cooked tokens of an input, or `none` if cooking panics. -/
def tokenize (input : List Char) : Option (List Token) :=
  Tokenizer.run input (input.length + 1) ⟨0, ⟨input, []⟩⟩

/-! ### Tree value (`src/ast.rs`) -/

/-- The output tree (`Node`). `nTrue`/`nFalse`/`nNull` stand for the source's
`True`/`False`/`Null`; `float` carries the numeral text (see
`Tokenizer.cookBaseDecimal`). -/
inductive Node
  | object (members : List (List Char × Node))
  | array (elements : List Node)
  | str (s : List Char)
  | int (v : Int)
  | float (text : List Char)
  | nTrue
  | nFalse
  | nNull

/-! ### Parser (`src/parser.rs`) -/

/-- `ParseErrorKind`. -/
inductive ParseErrorKind
  | unexpectedContinuation (k : TokenKind)
  | unexpectedEof
  | unexpectedToken (k : TokenKind)
  | invalidStr (e : StrError)
  | invalidIdent (s : List Char)
  | unknownToken (s : List Char)
deriving DecidableEq

/-- `ParseError`. -/
structure ParseError where
  kind : ParseErrorKind
  span : Span
deriving DecidableEq

/-- `ParseError::unexpected_eof`: the empty span at the end of the input. -/
def ParseError.unexpectedEofAt (inputLen : Nat) : ParseError :=
  ⟨.unexpectedEof, Span.new inputLen inputLen⟩

/-- `ParseError::unexpected_continuation`. -/
def ParseError.unexpectedContinuation (t : Token) : ParseError :=
  ⟨.unexpectedContinuation t.kind, t.span⟩

/-- `ParseError::from_token`: invalid-string tokens collapse to the empty
span at `base + offset`; the other kinds keep the token's span. -/
def ParseError.fromToken (t : Token) : ParseError :=
  match t.kind with
  | .invalidStr e offset =>
    let loc := t.span.base + offset
    ⟨.invalidStr e, Span.new loc loc⟩
  | .invalidIdent s => ⟨.invalidIdent s, t.span⟩
  | .unknown s => ⟨.unknownToken s, t.span⟩
  | .eof => ⟨.unexpectedEof, t.span⟩
  | k => ⟨.unexpectedToken k, t.span⟩

/-- The parser's token stream is the list of cooked tokens not yet consumed;
`Peekable::peek` is its head. Results pair the parsed value with the stream
that remains. The outer `Option` is the panic/fuel channel of the model. -/
abbrev PResult (α : Type) := Option (Except ParseError (α × List Token))

/-- `Parser::peek`: the head token, or unexpected end of input. -/
def Parser.peek (inputLen : Nat) (ts : List Token) : Except ParseError Token :=
  match ts with
  | [] => .error (ParseError.unexpectedEofAt inputLen)
  | t :: _ => .ok t

/-- `Parser::next`: consume the head token, or unexpected end of input. -/
def Parser.next (inputLen : Nat) (ts : List Token) : Except ParseError (Token × List Token) :=
  match ts with
  | [] => .error (ParseError.unexpectedEofAt inputLen)
  | t :: ts => .ok (t, ts)

/-- `Parser::end`: require the stream to be exhausted. -/
def Parser.end_ (ts : List Token) : Except ParseError Unit :=
  match ts with
  | [] => .ok ()
  | t :: _ => .error (ParseError.unexpectedContinuation t)

/-- `Parser::string`. -/
def Parser.string (inputLen : Nat) (ts : List Token) : Except ParseError (Node × List Token) := do
  let (t, ts) ← Parser.next inputLen ts
  match t.kind with
  | .str s => .ok (.str s, ts)
  | _ => .error (ParseError.fromToken t)

/-- `Parser::integer`. -/
def Parser.integer (inputLen : Nat) (ts : List Token) : Except ParseError (Node × List Token) := do
  let (t, ts) ← Parser.next inputLen ts
  match t.kind with
  | .int v => .ok (.int v, ts)
  | _ => .error (ParseError.fromToken t)

/-- `Parser::float`. -/
def Parser.float (inputLen : Nat) (ts : List Token) : Except ParseError (Node × List Token) := do
  let (t, ts) ← Parser.next inputLen ts
  match t.kind with
  | .float text => .ok (.float text, ts)
  | _ => .error (ParseError.fromToken t)

/-- `Parser::ident_true`. -/
def Parser.identTrue (inputLen : Nat) (ts : List Token) : Except ParseError (Node × List Token) := do
  let (t, ts) ← Parser.next inputLen ts
  match t.kind with
  | .tTrue => .ok (.nTrue, ts)
  | _ => .error (ParseError.fromToken t)

/-- `Parser::ident_false`. -/
def Parser.identFalse (inputLen : Nat) (ts : List Token) : Except ParseError (Node × List Token) := do
  let (t, ts) ← Parser.next inputLen ts
  match t.kind with
  | .tFalse => .ok (.nFalse, ts)
  | _ => .error (ParseError.fromToken t)

/-- `Parser::ident_null`. -/
def Parser.identNull (inputLen : Nat) (ts : List Token) : Except ParseError (Node × List Token) := do
  let (t, ts) ← Parser.next inputLen ts
  match t.kind with
  | .tNull => .ok (.nNull, ts)
  | _ => .error (ParseError.fromToken t)

/-- `Parser::eat_open_bracket`. -/
def Parser.eatOpenBracket (inputLen : Nat) (ts : List Token) : Except ParseError (List Token) := do
  let (t, ts) ← Parser.next inputLen ts
  match t.kind with
  | .openBracket => .ok ts
  | _ => .error (ParseError.fromToken t)

/-- `Parser::eat_close_bracket`. -/
def Parser.eatCloseBracket (inputLen : Nat) (ts : List Token) : Except ParseError (List Token) := do
  let (t, ts) ← Parser.next inputLen ts
  match t.kind with
  | .closeBracket => .ok ts
  | _ => .error (ParseError.fromToken t)

/-- `Parser::eat_open_square`. -/
def Parser.eatOpenSquare (inputLen : Nat) (ts : List Token) : Except ParseError (List Token) := do
  let (t, ts) ← Parser.next inputLen ts
  match t.kind with
  | .openSquare => .ok ts
  | _ => .error (ParseError.fromToken t)

/-- `Parser::eat_close_square`. -/
def Parser.eatCloseSquare (inputLen : Nat) (ts : List Token) : Except ParseError (List Token) := do
  let (t, ts) ← Parser.next inputLen ts
  match t.kind with
  | .closeSquare => .ok ts
  | _ => .error (ParseError.fromToken t)

/-- `Parser::eat_colon`. -/
def Parser.eatColon (inputLen : Nat) (ts : List Token) : Except ParseError (List Token) := do
  let (t, ts) ← Parser.next inputLen ts
  match t.kind with
  | .colon => .ok ts
  | _ => .error (ParseError.fromToken t)

/-- `Parser::eat_comma`. -/
def Parser.eatComma (inputLen : Nat) (ts : List Token) : Except ParseError (List Token) := do
  let (t, ts) ← Parser.next inputLen ts
  match t.kind with
  | .comma => .ok ts
  | _ => .error (ParseError.fromToken t)

/-- `Parser::member`: a string key, a colon, then a value. The recursive
productions take the `value` parser as the parameter `pval`, which breaks the
mutual recursion of the source; `Parser.value` ties the knot through its fuel. -/
def Parser.member (pval : List Token → PResult Node) (inputLen : Nat) (ts : List Token) :
    PResult (List Char × Node) :=
  match Parser.next inputLen ts with
  | .error e => some (.error e)
  | .ok (t, ts) =>
    match t.kind with
    | .str s =>
      (match Parser.eatColon inputLen ts with
       | .error e => some (.error e)
       | .ok ts =>
         match pval ts with
         | none => none
         | some (.error e) => some (.error e)
         | some (.ok (v, ts)) => some (.ok ((s, v), ts)))
    | _ => some (.error (ParseError.fromToken t))

/-- The loop of `Parser::members`: stop on a peeked `}` , otherwise eat a
comma and another member. Members are accumulated in reverse (the source
pushes onto a vector). `fuel` is bounded by the entry stream length. -/
def Parser.membersLoop (pval : List Token → PResult Node) (inputLen : Nat) :
    Nat → List (List Char × Node) → List Token → PResult (List (List Char × Node))
  | 0, _, _ => none
  | fuel + 1, acc, ts =>
    match Parser.peek inputLen ts with
    | .error e => some (.error e)
    | .ok t =>
      match t.kind with
      | .closeBracket => some (.ok (acc.reverse, ts))
      | _ =>
        match Parser.eatComma inputLen ts with
        | .error e => some (.error e)
        | .ok ts =>
          match Parser.member pval inputLen ts with
          | none => none
          | some (.error e) => some (.error e)
          | some (.ok (m, ts)) => Parser.membersLoop pval inputLen fuel (m :: acc) ts

/-- `Parser::members`: one member, then the comma-separated loop. -/
def Parser.members (pval : List Token → PResult Node) (inputLen : Nat) (ts : List Token) :
    PResult (List (List Char × Node)) :=
  match Parser.member pval inputLen ts with
  | none => none
  | some (.error e) => some (.error e)
  | some (.ok (m, ts)) => Parser.membersLoop pval inputLen (ts.length + 1) [m] ts

/-- `Parser::object`: `{`, then either an immediate `}` (no members) or the
member list, then `}`. -/
def Parser.object (pval : List Token → PResult Node) (inputLen : Nat) (ts : List Token) :
    PResult Node :=
  match Parser.eatOpenBracket inputLen ts with
  | .error e => some (.error e)
  | .ok ts =>
    match Parser.peek inputLen ts with
    | .error e => some (.error e)
    | .ok t =>
      let items : PResult (List (List Char × Node)) :=
        match t.kind with
        | .closeBracket => some (.ok ([], ts))
        | _ => Parser.members pval inputLen ts
      match items with
      | none => none
      | some (.error e) => some (.error e)
      | some (.ok (items, ts)) =>
        match Parser.eatCloseBracket inputLen ts with
        | .error e => some (.error e)
        | .ok ts => some (.ok (.object items, ts))

/-- The loop of `Parser::elements`: stop on a peeked `]`, otherwise eat a
comma and another value. -/
def Parser.elementsLoop (pval : List Token → PResult Node) (inputLen : Nat) :
    Nat → List Node → List Token → PResult (List Node)
  | 0, _, _ => none
  | fuel + 1, acc, ts =>
    match Parser.peek inputLen ts with
    | .error e => some (.error e)
    | .ok t =>
      match t.kind with
      | .closeSquare => some (.ok (acc.reverse, ts))
      | _ =>
        match Parser.eatComma inputLen ts with
        | .error e => some (.error e)
        | .ok ts =>
          match pval ts with
          | none => none
          | some (.error e) => some (.error e)
          | some (.ok (v, ts)) => Parser.elementsLoop pval inputLen fuel (v :: acc) ts

/-- `Parser::elements`: one value, then the comma-separated loop. -/
def Parser.elements (pval : List Token → PResult Node) (inputLen : Nat) (ts : List Token) :
    PResult (List Node) :=
  match pval ts with
  | none => none
  | some (.error e) => some (.error e)
  | some (.ok (v, ts)) => Parser.elementsLoop pval inputLen (ts.length + 1) [v] ts

/-- `Parser::array`: `[`, then either no elements or the element list, then
`]`. The empty case peeks for `CloseBracket` (`}`), exactly as the source
does. -/
def Parser.array (pval : List Token → PResult Node) (inputLen : Nat) (ts : List Token) :
    PResult Node :=
  match Parser.eatOpenSquare inputLen ts with
  | .error e => some (.error e)
  | .ok ts =>
    match Parser.peek inputLen ts with
    | .error e => some (.error e)
    | .ok t =>
      let items : PResult (List Node) :=
        match t.kind with
        | .closeBracket => some (.ok ([], ts))
        | _ => Parser.elements pval inputLen ts
      match items with
      | none => none
      | some (.error e) => some (.error e)
      | some (.ok (items, ts)) =>
        match Parser.eatCloseSquare inputLen ts with
        | .error e => some (.error e)
        | .ok ts => some (.ok (.array items, ts))

/-- `Parser::value`: dispatch on one peeked token. `fuel` bounds the nesting
depth; `Parser.parseToplevel` passes the stream length plus one, and every
nesting level consumes at least one token before recursing. -/
def Parser.value : Nat → Nat → List Token → PResult Node
  | 0, _, _ => none
  | fuel + 1, inputLen, ts =>
    match Parser.peek inputLen ts with
    | .error e => some (.error e)
    | .ok t =>
      match t.kind with
      | .openBracket => Parser.object (Parser.value fuel inputLen) inputLen ts
      | .openSquare => Parser.array (Parser.value fuel inputLen) inputLen ts
      | .str _ => some (Parser.string inputLen ts)
      | .int _ => some (Parser.integer inputLen ts)
      | .float _ => some (Parser.float inputLen ts)
      | .tTrue => some (Parser.identTrue inputLen ts)
      | .tFalse => some (Parser.identFalse inputLen ts)
      | .tNull => some (Parser.identNull inputLen ts)
      | _ => some (.error (ParseError.fromToken t))

/-- `Parser::parse`: one `value` (via `json`), then end of input. -/
def Parser.parseToplevel (inputLen : Nat) (ts : List Token) : Option (Except ParseError Node) :=
  match Parser.value (ts.length + 1) inputLen ts with
  | none => none
  | some (.error e) => some (.error e)
  | some (.ok (node, ts)) =>
    match Parser.end_ ts with
    | .error e => some (.error e)
    | .ok () => some (.ok node)

/-- The entry point `parse(input)`. `none` models a panic while cooking. -/
def parse (input : List Char) : Option (Except ParseError Node) :=
  match tokenize input with
  | none => none
  | some ts => Parser.parseToplevel (utf8Len input) ts

/-! ### Shape of integer lexemes (analysis definitions) -/

/-- A textual integer numeral: an optional leading minus, then one or more
ASCII digits (what `str::parse::<isize>` accepts apart from a `+` sign, and
the shape every Integer lexeme of the raw lexer has). -/
def validIntNumeral : List Char → Bool
  | [] => false
  | c :: cs =>
    if c = '-' then !cs.isEmpty && cs.all Char.isDigit
    else c.isDigit && cs.all Char.isDigit

/-- Mathematical value of an integer numeral. -/
def numeralIntValue : List Char → Int
  | [] => 0
  | c :: cs => if c = '-' then -(digitsToNat cs : Int) else (digitsToNat (c :: cs) : Int)

/-- The 64-bit `isize` range. -/
def inIsizeRange (v : Int) : Bool :=
  decide (-(2 ^ 63) ≤ v ∧ v ≤ 2 ^ 63 - 1)

/-- Whether a `scan_escape` result is the out-of-range unicode-escape error. -/
def escOOR : Except EscapeError Char → Bool
  | .error .outOfRangeUnicodeEscape => true
  | _ => false

/-- Whether an `unescape_string` result is the out-of-range unicode-escape error. -/
def isOutOfRangeResult : Except (EscapeError × Nat × Nat) (List Char) → Bool
  | .error (.outOfRangeUnicodeEscape, _, _) => true
  | _ => false

/-! ### Helper lemmas -/

theorem utf8Len_append (a b : List Char) : utf8Len (a ++ b) = utf8Len a + utf8Len b := by
  induction a with
  | nil => simp [utf8Len]
  | cons c cs ih => simp [utf8Len, ih]; omega

theorem utf8Len_reverse (l : List Char) : utf8Len l.reverse = utf8Len l := by
  induction l with
  | nil => rfl
  | cons c cs ih => simp [utf8Len, List.reverse_cons, utf8Len_append, ih]; omega

theorem eatWhileList_append (p : Char → Bool) (l : List Char) :
    (eatWhileList p l).1 ++ (eatWhileList p l).2 = l := by
  induction l with
  | nil => rfl
  | cons c cs ih =>
    simp only [eatWhileList]
    split
    · simpa using ih
    · rfl

theorem eatWhileList_all (p : Char → Bool) (l : List Char) :
    (eatWhileList p l).1.all p = true := by
  induction l with
  | nil => rfl
  | cons c cs ih =>
    simp only [eatWhileList]
    split
    · simp_all
    · rfl

theorem numberTail_int (c : Cursor) (h : (numberTail c).1 = .int) : (numberTail c).2 = c := by
  unfold numberTail at h ⊢
  split_ifs at h ⊢ <;> simp_all

theorem number_int (d : Char) (c : Cursor) (h : (number d c).1 = .int) :
    ∃ t, t.all Char.isDigit = true ∧
      (number d c).2.consumedRev = t.reverse ++ c.consumedRev ∧
      c.rest = t ++ (number d c).2.rest := by
  unfold number at h ⊢
  split_ifs at h ⊢
  · -- leading zero that extends: the tail must be an unchanged-cursor integer
    refine ⟨[], rfl, ?_, ?_⟩ <;> simp [numberTail_int c h]
  · -- a lone zero
    exact ⟨[], rfl, by simp, by simp⟩
  · -- nonzero first digit: the eaten decimal digits
    have h2 := numberTail_int c.eatDecimalDigits h
    refine ⟨(eatWhileList Char.isDigit c.rest).1, eatWhileList_all _ _, ?_, ?_⟩
    · rw [h2]
      rfl
    · rw [h2]
      exact (eatWhileList_append Char.isDigit c.rest).symm

theorem isDigit_ne_minus {c : Char} (h : c.isDigit = true) : c ≠ '-' := by
  intro hc
  subst hc
  simp [Char.isDigit] at h

theorem isDigit_ne_plus {c : Char} (h : c.isDigit = true) : c ≠ '+' := by
  intro hc
  subst hc
  simp [Char.isDigit] at h

theorem ite_inIsizeRange (v : Int) :
    (if -(2 ^ 63) ≤ v ∧ v ≤ 2 ^ 63 - 1 then some v else none) =
      if inIsizeRange v then some v else none := by
  by_cases hr : -(2 ^ 63 : Int) ≤ v ∧ v ≤ 2 ^ 63 - 1
  · rw [if_pos hr, if_pos (by rwa [inIsizeRange, decide_eq_true_eq])]
  · rw [if_neg hr, if_neg (by rw [inIsizeRange, decide_eq_true_eq]; exact hr)]

theorem parseIsize_valid (s : List Char) (h : validIntNumeral s = true) :
    parseIsize s =
      if inIsizeRange (numeralIntValue s) then some (numeralIntValue s) else none := by
  match s with
  | [] => simp [validIntNumeral] at h
  | c :: cs =>
    simp only [validIntNumeral] at h
    by_cases hm : c = '-'
    · rw [if_pos hm, Bool.and_eq_true] at h
      have he : cs.isEmpty = false := by
        cases hb : cs.isEmpty
        · rfl
        · rw [hb] at h
          exact absurd h.1 (by decide)
      simp only [parseIsize, numeralIntValue]
      rw [show (if c = '-' ∨ c = '+' then cs else c :: cs) = cs from if_pos (Or.inl hm)]
      rw [he, h.2]
      rw [if_neg (by decide)]
      rw [show (if c = '-' then -(digitsToNat cs : Int) else (digitsToNat cs : Int)) =
        -(digitsToNat cs : Int) from if_pos hm]
      rw [show (if c = '-' then -(digitsToNat cs : Int) else (digitsToNat (c :: cs) : Int)) =
        -(digitsToNat cs : Int) from if_pos hm]
      exact ite_inIsizeRange _
    · rw [if_neg hm, Bool.and_eq_true] at h
      have hp := isDigit_ne_plus h.1
      have hall : (c :: cs).all Char.isDigit = true := by
        rw [List.all_cons, h.1, h.2]
        rfl
      simp only [parseIsize, numeralIntValue]
      rw [show (if c = '-' ∨ c = '+' then cs else c :: cs) = c :: cs from
        if_neg (by simp [hm, hp])]
      rw [hall]
      rw [if_neg (by simp)]
      rw [show (if c = '-' then -(digitsToNat (c :: cs) : Int) else (digitsToNat (c :: cs) : Int)) =
        (digitsToNat (c :: cs) : Int) from if_neg hm]
      rw [show (if c = '-' then -(digitsToNat cs : Int) else (digitsToNat (c :: cs) : Int)) =
        (digitsToNat (c :: cs) : Int) from if_neg hm]
      exact ite_inIsizeRange _

theorem eofChar_not_digit : eofChar.isDigit = false := by decide

theorem toDigit16_lt {c : Char} {d : Nat} (h : toDigit16 c = some d) : d < 16 := by
  simp only [toDigit16] at h
  split_ifs at h <;> simp_all <;> omega

theorem scanUnicodeLoop_not_oor (cs : List Char) :
    ∀ n v b, v < 16 ^ n → n ≤ 3 → escOOR (scanUnicodeLoop cs n v b).1 = false := by
  induction cs with
  | nil =>
    intro n v b _ _
    rfl
  | cons c cs ih =>
    intro n v b hv hn
    simp only [scanUnicodeLoop]
    cases htd : toDigit16 c with
    | none =>
      simp only [htd]
      rfl
    | some d =>
      have hd := toDigit16_lt htd
      simp only [htd]
      by_cases h4 : n + 1 < 4
      · rw [if_pos h4]
        refine ih (n + 1) _ _ ?_ (by omega)
        have hp : (16 : Nat) ^ (n + 1) = 16 ^ n * 16 := pow_succ 16 n
        omega
      · rw [if_neg h4]
        have h3 : n = 3 := by omega
        subst h3
        have hb : v * 16 + d < 65536 := by
          norm_num at hv
          omega
        cases hc : charFromU32 (v * 16 + d) with
        | some ch =>
          simp only [hc]
          rfl
        | none =>
          simp only [hc]
          rw [if_neg (by omega : ¬ v * 16 + d > 0x10FFFF)]
          rfl

theorem scanUnicode_not_oor (cs : List Char) : escOOR (scanUnicode cs).1 = false := by
  cases cs with
  | nil => rfl
  | cons c cs =>
    simp only [scanUnicode]
    cases htd : toDigit16 c with
    | none => rfl
    | some d =>
      have hd := toDigit16_lt htd
      exact scanUnicodeLoop_not_oor cs 1 d 2 (by simpa using hd) (by omega)

theorem scanEscape_not_oor (cs : List Char) : escOOR (scanEscape cs).1 = false := by
  cases cs with
  | nil => rfl
  | cons c cs =>
    simp only [scanEscape]
    split_ifs <;> first | rfl | exact scanUnicode_not_oor cs

theorem escOOR_error {e : EscapeError} (h : escOOR (.error e) = false) (a b : Nat) :
    isOutOfRangeResult (.error (e, a, b)) = false := by
  cases e <;> simp_all [escOOR, isOutOfRangeResult]

theorem unescapeLoop_not_oor :
    ∀ fuel cs offset acc, isOutOfRangeResult (unescapeLoop fuel cs offset acc) = false := by
  intro fuel
  induction fuel with
  | zero =>
    intro cs offset acc
    rfl
  | succ fuel ih =>
    intro cs offset acc
    cases cs with
    | nil => rfl
    | cons c cs =>
      simp only [unescapeLoop]
      by_cases hb : c = '\\'
      · rw [if_pos hb]
        rcases hse : scanEscape cs with ⟨res, n, cs2⟩
        cases res with
        | ok ch => exact ih _ _ _
        | error e =>
          have he := scanEscape_not_oor cs
          rw [hse] at he
          exact escOOR_error he _ _
      · rw [if_neg hb]
        split_ifs <;> first | rfl | exact ih _ _ _

/-! ### Claim theorems -/

/-- Claim C1: the grammar's array production permits an empty array, but the
code rejects it: `parse "[]"` fails with `UnexpectedToken(CloseSquare)` at
span `[1,2)`, because `Parser::array` peeks for `CloseBracket` (the brace
`}`) instead of `CloseSquare` when testing for an immediately closed array,
so the `]` reaches `value`, which cannot use it. -/
theorem parse_empty_array_rejected :
    parse "[]".toList = some (.error ⟨.unexpectedToken .closeSquare, ⟨1, 1⟩⟩) := rfl

/-- Claim C2, counterexample: integer cooking can panic. On the input of
twenty nines the raw lexer produces a single Integer lexeme of byte length
20, and `cook_base_integer`'s `slice.parse::<isize>().unwrap()` fails (the
value exceeds `2^63 - 1`), so tokenization panics (`none` in the model). -/
theorem cook_integer_overflow_panics :
    (advanceToken ⟨"99999999999999999999".toList, []⟩).1 = ⟨.int, 20⟩ ∧
    tokenize "99999999999999999999".toList = none :=
  ⟨by decide, by decide⟩

/-- Claim C2, amended: every Integer lexeme the raw lexer can produce covers
a well-formed numeral (an optional minus then one or more digits), so the
`unwrap` in `cook_base_integer` panics exactly when the numeral's value lies
outside the signed 64-bit range, and never panics within it; digit runs whose
value exceeds that range do make it panic. -/
theorem int_lexeme_parse_fails_iff_out_of_range (rest : List Char)
    (h : ((advanceToken ⟨rest, []⟩).1).kind = RawTokenKind.int) :
    ∃ lexeme,
      rest = lexeme ++ ((advanceToken ⟨rest, []⟩).2).rest ∧
      validIntNumeral lexeme = true ∧
      ((advanceToken ⟨rest, []⟩).1).len = utf8Len lexeme ∧
      parseIsize lexeme =
        if inIsizeRange (numeralIntValue lexeme) then some (numeralIntValue lexeme) else none := by
  cases rest with
  | nil => simp [advanceToken, Cursor.bump] at h
  | cons ch rest0 =>
    simp only [advanceToken, Cursor.bump] at h ⊢
    by_cases hw : rustIsWhitespace ch = true
    · rw [if_pos hw] at h
      simp [Cursor.finishToken] at h
    · rw [if_neg hw] at h ⊢
      by_cases hi : is_id_start ch = true
      · rw [if_pos hi] at h
        simp [Cursor.finishToken] at h
      · rw [if_neg hi] at h ⊢
        by_cases hd : ch.isDigit = true
        · rw [if_pos hd] at h ⊢
          simp only [Cursor.finishToken] at h ⊢
          replace h : (number ch ⟨rest0, [ch]⟩).1 = RawTokenKind.int := h
          obtain ⟨t, hall, hcons, hrest⟩ := number_int ch ⟨rest0, [ch]⟩ h
          have hv : validIntNumeral (ch :: t) = true := by
            simp only [validIntNumeral]
            rw [if_neg (isDigit_ne_minus hd), hd, hall]
            rfl
          refine ⟨ch :: t, ?_, hv, ?_, parseIsize_valid _ hv⟩
          · simpa using hrest
          · simp only [Cursor.posWithinToken]
            rw [hcons]
            simp [utf8Len_append, utf8Len_reverse, utf8Len]
            omega
        · rw [if_neg hd] at h ⊢
          by_cases hm : ch = '-'
          · rw [if_pos hm] at h ⊢
            cases rest0 with
            | nil =>
              rw [if_neg (by simp [Cursor.first, eofChar_not_digit])] at h
              simp at h
            | cons d rest1 =>
              by_cases hdd : d.isDigit = true
              · rw [if_pos (by simpa [Cursor.first] using hdd)] at h ⊢
                simp only [Cursor.bump, Cursor.finishToken] at h ⊢
                replace h : (number d ⟨rest1, [d, ch]⟩).1 = RawTokenKind.int := h
                obtain ⟨t, hall, hcons, hrest⟩ := number_int d ⟨rest1, [d, ch]⟩ h
                have hv : validIntNumeral (ch :: d :: t) = true := by
                  simp only [validIntNumeral]
                  rw [if_pos hm]
                  simp [hdd, hall]
                refine ⟨ch :: d :: t, ?_, hv, ?_, parseIsize_valid _ hv⟩
                · simpa using hrest
                · simp only [Cursor.posWithinToken]
                  rw [hcons]
                  simp [utf8Len_append, utf8Len_reverse, utf8Len]
                  omega
              · rw [if_neg (by simpa [Cursor.first] using hdd)] at h
                simp at h
          · rw [if_neg hm] at h ⊢
            by_cases h1 : ch = '{'
            · rw [if_pos h1] at h
              simp [Cursor.finishToken] at h
            · rw [if_neg h1] at h ⊢
              by_cases h2 : ch = '}'
              · rw [if_pos h2] at h
                simp [Cursor.finishToken] at h
              · rw [if_neg h2] at h ⊢
                by_cases h3 : ch = '['
                · rw [if_pos h3] at h
                  simp [Cursor.finishToken] at h
                · rw [if_neg h3] at h ⊢
                  by_cases h4 : ch = ']'
                  · rw [if_pos h4] at h
                    simp [Cursor.finishToken] at h
                  · rw [if_neg h4] at h ⊢
                    by_cases h5 : ch = ':'
                    · rw [if_pos h5] at h
                      simp [Cursor.finishToken] at h
                    · rw [if_neg h5] at h ⊢
                      by_cases h6 : ch = ','
                      · rw [if_pos h6] at h
                        simp [Cursor.finishToken] at h
                      · rw [if_neg h6] at h ⊢
                        by_cases h7 : ch = '"'
                        · rw [if_pos h7] at h
                          simp [Cursor.finishToken] at h
                        · rw [if_neg h7] at h
                          simp [Cursor.finishToken] at h

/-- Claim C2, witness: on the input `42` the raw lexer yields an Integer
lexeme and the amended statement holds with all its parts evaluated. -/
theorem int_lexeme_parse_fails_iff_out_of_range_witness :
    ((advanceToken ⟨"42".toList, []⟩).1).kind = RawTokenKind.int ∧
    ∃ lexeme,
      "42".toList = lexeme ++ ((advanceToken ⟨"42".toList, []⟩).2).rest ∧
      validIntNumeral lexeme = true ∧
      ((advanceToken ⟨"42".toList, []⟩).1).len = utf8Len lexeme ∧
      parseIsize lexeme =
        if inIsizeRange (numeralIntValue lexeme) then some (numeralIntValue lexeme) else none :=
  ⟨by decide, int_lexeme_parse_fails_iff_out_of_range "42".toList (by decide)⟩

/-- Claim C3: the span invariant `base + len <= input.len()` fails for the
parse error of the input consisting of a space and a double quote (2 bytes):
the unterminated string lexeme starting at byte 1 is cooked with the absolute
offset 2 in place of a within-token offset, and `ParseError::from_token` adds
the token base again, yielding the span `[3,3)` with base 3 > 2. -/
theorem unterminated_error_span_exceeds_input :
    parse " \"".toList = some (.error ⟨.invalidStr .unterminated, ⟨3, 0⟩⟩) ∧
    utf8Len " \"".toList = 2 :=
  ⟨rfl, rfl⟩

/-- Claim C4: for an unterminated string lexeme that does not start at byte 0
the recorded offset is not the lexeme length: on two spaces followed by a
double quote, the lexeme has byte length 1 (span `[2,3)`) but
`cook_base_quoted_string` records `self.pos = 3`, the absolute end position. -/
theorem unterminated_offset_absolute_not_length :
    tokenize "  \"".toList = some [⟨.invalidStr .unterminated 3, ⟨2, 1⟩⟩] := by
  decide

/-- Claim C5, counterexample: `parse "\uDFFF"` (the 8-byte quoted escape)
does fail with the lone-surrogate error, but its span is the empty span
`[1,1)`, not a span of length 6 covering the escape sequence:
`ParseError::from_token` collapses invalid-string spans to a point. -/
theorem parse_lone_surrogate_span_not_six :
    parse "\"\\uDFFF\"".toList =
      some (.error ⟨.invalidStr .loneSurrogateUnicodeEscape, ⟨1, 0⟩⟩) ∧
    (⟨1, 0⟩ : Span) ≠ ⟨1, 6⟩ :=
  ⟨rfl, by decide⟩

/-- Claim C5, amended: `parse "\uDFFF"` fails with a lone-surrogate
unicode-escape error whose span is the empty span at byte 1, the start of the
6-character escape sequence. -/
theorem parse_lone_surrogate_empty_span :
    parse "\"\\uDFFF\"".toList =
      some (.error ⟨.invalidStr .loneSurrogateUnicodeEscape, ⟨1, 0⟩⟩) := rfl

/-- Claim C6: parsing the empty input fails with unexpected end of input at
the empty span `[0,0)`. -/
theorem parse_empty_input_unexpected_eof :
    parse "".toList = some (.error ⟨.unexpectedEof, ⟨0, 0⟩⟩) := rfl

/-- Claim C7: `parse "[{}]"` succeeds with a one-element array containing the
empty object. -/
theorem parse_array_of_empty_object :
    parse "[{}]".toList = some (.ok (.array [.object []])) := rfl

/-- Claim C8: `00` lexes as two Integer lexemes of length 1; the first cooks
to `Int(0)` and becomes a complete value, and the parser rejects the second
as unexpected continuation at byte offset 1. -/
theorem parse_double_zero_trailing_int :
    tokenize "00".toList = some [⟨.int 0, ⟨0, 1⟩⟩, ⟨.int 0, ⟨1, 1⟩⟩] ∧
    parse "00".toList = some (.error ⟨.unexpectedContinuation (.int 0), ⟨1, 1⟩⟩) :=
  ⟨by decide, rfl⟩

/-- Claim C9: on `-0.12E` the raw lexer produces a Float lexeme of byte
length 5 covering `-0.12` (the exponent marker with no digit is not
consumed); the trailing `E` cooks to `InvalidIdent("E")`, and `parse` rejects
it as unexpected continuation after the complete float value. -/
theorem parse_float_lone_exponent_marker :
    tokenize "-0.12E".toList =
      some [⟨.float "-0.12".toList, ⟨0, 5⟩⟩, ⟨.invalidIdent "E".toList, ⟨5, 1⟩⟩] ∧
    parse "-0.12E".toList =
      some (.error ⟨.unexpectedContinuation (.invalidIdent "E".toList), ⟨5, 1⟩⟩) :=
  ⟨by decide, rfl⟩

/-- Claim C10: `unescape_string` never returns the `OutOfRangeUnicodeEscape`
error: a unicode escape reads exactly 4 hexadecimal digits, so the decoded
value is below `0x10000` and the `value > 0x10FFFF` branch of `scan_escape`
is unreachable; every conversion failure is reported as a lone surrogate. -/
theorem unescapeString_never_out_of_range (input : List Char) :
    isOutOfRangeResult (unescapeString input) = false :=
  unescapeLoop_not_oor _ _ _ _
